import Mathlib

/-!
Verification development for the PainPointer discovery-and-classification
pipeline.  The definitions below are a shallow embedding of the TypeScript
sources: `pain-point-extractor.ts` (candidate extraction, deduplication,
engagement gate, AI relevance filter), `gemini-analyzer.ts` (categorization,
summaries, result assembly) and the `analyze` route handler.  External AI
responses are modelled as explicit oracle arguments (an `Option` value:
`none` is a failed or unparsable call, `some` a successfully parsed payload);
JS numbers holding integer counts and scores are modelled as `Int`, and the
floating-point `Math.round(total / length)` as rounding of the exact rational
mean (the scores involved are integers).
-/

namespace PainPointer

/-- JS `String.prototype.toLowerCase`, character by character (the strings
involved are ASCII, where the JS and the `Char.toLower` mappings agree). -/
def toLowerStr (s : String) : String :=
  String.mk (s.toList.map Char.toLower)

/-- JS `String.prototype.trim`: strip leading and trailing whitespace. -/
def trimStr (s : String) : String :=
  String.mk (((s.toList.dropWhile Char.isWhitespace).reverse.dropWhile
    Char.isWhitespace).reverse)

/-- JS `needle ⊆ haystack` substring test (`String.prototype.includes`). -/
def substrOf (needle haystack : String) : Bool :=
  decide (needle.toList <:+: haystack.toList)

/-- One Reddit comment (`RedditComment` in `reddit-client.ts`).  The
`replies` field is present in the interface but never read by extraction. -/
inductive RedditComment where
  | mk (id : String) (body : String) (score : Int) (created_utc : Int)
      (author : String) (replies : List RedditComment)

def RedditComment.id : RedditComment → String
  | .mk i _ _ _ _ _ => i

def RedditComment.body : RedditComment → String
  | .mk _ b _ _ _ _ => b

def RedditComment.score : RedditComment → Int
  | .mk _ _ s _ _ _ => s

def RedditComment.created_utc : RedditComment → Int
  | .mk _ _ _ c _ _ => c

def RedditComment.replies : RedditComment → List RedditComment
  | .mk _ _ _ _ _ r => r

/-- One Reddit post (`RedditPost` in `reddit-client.ts`). -/
structure RedditPost where
  id : String
  title : String
  selftext : String
  score : Int
  num_comments : Int
  url : String
  subreddit : String
  created_utc : Int
  author : String
  comments : Option (List RedditComment)

/-- The origin of a candidate (the `source` union type of `PainPoint`). -/
inductive PainSource where
  | title
  | post
  | comment
deriving DecidableEq, Repr

/-- A pain-point candidate (`PainPoint` in `pain-point-extractor.ts`). -/
structure PainPoint where
  id : String
  content : String
  source : PainSource
  score : Int
  num_comments : Int
  subreddit : String
  url : String
  created_utc : Int
  engagementScore : Int
deriving DecidableEq, Repr

/-- `COMPLAINT_KEYWORDS` from `pain-point-extractor.ts` (verbatim, including
the repeated entry "broken"). -/
def COMPLAINT_KEYWORDS : List String :=
  ["hate", "awful", "terrible", "worst", "horrible", "annoying", "frustrating",
   "useless", "broken", "buggy", "slow", "expensive", "overpriced",
   "problem", "issue", "bug", "error", "fail", "crash", "freeze", "glitch",
   "doesn't work", "not working", "stopped working", "broken",
   "disappointed", "regret", "waste", "scam", "rip off", "avoid", "never again",
   "poor quality", "bad experience", "customer service", "support",
   "should fix", "needs to", "wish they would", "hope they", "better if",
   "why can't", "when will", "still waiting"]

/-- A token of one of the `NEGATIVE_PATTERNS` regexes: a literal piece, an
alternation of literal words, or the `.+` wildcard. -/
inductive RegexTok where
  | lit (s : String)
  | alt (ws : List String)
  | dotPlus

/-- The JS regex `.` matches any character except a line terminator. -/
def isJsDot (c : Char) : Bool :=
  !(c == '\n' || c == '\r' || c == Char.ofNat 0x2028 || c == Char.ofNat 0x2029)

/-- The suffixes reachable by letting `.+` consume one or more characters. -/
def dotPlusSuffixes : List Char → List (List Char)
  | [] => []
  | c :: cs => if isJsDot c then cs :: dotPlusSuffixes cs else []

/-- Match a token sequence at the start of a character list (with
backtracking for `.+`). -/
def matchTokens : List RegexTok → List Char → Bool
  | [], _ => true
  | RegexTok.lit s :: ts, cs =>
      s.toList.isPrefixOf cs && matchTokens ts (cs.drop s.toList.length)
  | RegexTok.alt ws :: ts, cs =>
      ws.any fun w => w.toList.isPrefixOf cs && matchTokens ts (cs.drop w.toList.length)
  | RegexTok.dotPlus :: ts, cs =>
      (dotPlusSuffixes cs).any fun rest => matchTokens ts rest

/-- JS `pattern.test(text)` for a case-insensitive unanchored pattern: a
match may start at any position.  Case-insensitivity is modelled by
lowercasing the input (the patterns are written lowercase). -/
def regexTest (toks : List RegexTok) (text : String) : Bool :=
  ((toLowerStr text).toList.tails).any fun cs => matchTokens toks cs

/-- `NEGATIVE_PATTERNS` from `pain-point-extractor.ts`, tokenized. -/
def NEGATIVE_PATTERNS : List (List RegexTok) :=
  [ [RegexTok.lit "why ", RegexTok.alt ["does", "is", "are", "do"], RegexTok.lit " ",
     RegexTok.dotPlus, RegexTok.lit " ", RegexTok.alt ["so", "such"], RegexTok.lit " ",
     RegexTok.dotPlus, RegexTok.lit " ",
     RegexTok.alt ["bad", "awful", "terrible", "slow", "expensive"]],
    [RegexTok.lit "can't believe ", RegexTok.dotPlus, RegexTok.lit " ",
     RegexTok.alt ["still", "doesn't", "won't"]],
    [RegexTok.alt ["hate", "dislike"], RegexTok.lit " ",
     RegexTok.alt ["how", "that", "when"], RegexTok.lit " ", RegexTok.dotPlus],
    [RegexTok.lit "wish ", RegexTok.dotPlus, RegexTok.lit " ",
     RegexTok.alt ["would", "could", "didn't"], RegexTok.lit " ", RegexTok.dotPlus],
    [RegexTok.alt ["sick", "tired"], RegexTok.lit " ", RegexTok.alt ["of", "from"],
     RegexTok.lit " ", RegexTok.dotPlus],
    [RegexTok.lit "what's wrong with ", RegexTok.dotPlus],
    [RegexTok.alt ["anyone else", "does anyone"], RegexTok.lit " ",
     RegexTok.alt ["hate", "dislike", "have problems"], RegexTok.lit " ", RegexTok.dotPlus] ]

/-- `PainPointExtractor.containsPainPoint`. -/
def containsPainPoint (text : String) : Bool :=
  let lowerText := toLowerStr text
  let hasComplaintKeywords := COMPLAINT_KEYWORDS.any fun keyword =>
    substrOf (toLowerStr keyword) lowerText
  let hasNegativePatterns := NEGATIVE_PATTERNS.any fun pattern' =>
    regexTest pattern' text
  let isComplaintQuestion :=
    substrOf "?" lowerText &&
    (substrOf "why" lowerText || substrOf "how" lowerText) &&
    (substrOf "bad" lowerText || substrOf "slow" lowerText || substrOf "broken" lowerText)
  hasComplaintKeywords || hasNegativePatterns || isComplaintQuestion

/-- Collapse runs of newlines to a single space (the JS
`text.replace(/\n+/g, ' ')`); the boolean records whether the previous
character was a newline. -/
def collapseNewlines : Bool → List Char → List Char
  | _, [] => []
  | prevNL, c :: cs =>
      if c == '\n' then
        if prevNL then collapseNewlines true cs
        else ' ' :: collapseNewlines true cs
      else c :: collapseNewlines false cs

/-- `PainPointExtractor.extractRelevantText`: collapse newlines, trim, and
truncate to 200 characters with an ellipsis marker. -/
def extractRelevantText (text : String) : String :=
  let cleanText := trimStr (String.mk (collapseNewlines false text.toList))
  if cleanText.length > 200 then String.mk (cleanText.toList.take 200) ++ "..."
  else cleanText

/-- `PainPointExtractor.calculateEngagementScore`. -/
def calculateEngagementScore (score numComments : Int) : Int :=
  score + numComments * 2

/-- The candidate built from a post title. -/
def titleCandidate (post : RedditPost) : PainPoint :=
  { id := post.id ++ "_title"
    content := post.title
    source := PainSource.title
    score := post.score
    num_comments := post.num_comments
    subreddit := post.subreddit
    url := post.url
    created_utc := post.created_utc
    engagementScore := calculateEngagementScore post.score post.num_comments }

/-- The candidate built from a post body. -/
def postCandidate (post : RedditPost) : PainPoint :=
  { id := post.id ++ "_post"
    content := extractRelevantText post.selftext
    source := PainSource.post
    score := post.score
    num_comments := post.num_comments
    subreddit := post.subreddit
    url := post.url
    created_utc := post.created_utc
    engagementScore := calculateEngagementScore post.score post.num_comments }

/-- The candidate built from a comment: `num_comments` is the literal `0`
and the engagement score is computed from the comment score and `0`. -/
def commentCandidate (post : RedditPost) (comment : RedditComment) : PainPoint :=
  { id := comment.id ++ "_comment"
    content := extractRelevantText comment.body
    source := PainSource.comment
    score := comment.score
    num_comments := 0
    subreddit := post.subreddit
    url := post.url
    created_utc := comment.created_utc
    engagementScore := calculateEngagementScore comment.score 0 }

/-- The candidates one post contributes, in push order: title (if it is a
pain point), body (if non-empty, JS truthiness, and a pain point), then each
matching comment.  `post.comments` being absent skips the comment loop. -/
def extractFromPost (post : RedditPost) : List PainPoint :=
  (if containsPainPoint post.title then [titleCandidate post] else []) ++
  (if post.selftext ≠ "" ∧ containsPainPoint post.selftext then [postCandidate post] else []) ++
  (match post.comments with
   | none => []
   | some cs => (cs.filter fun c => containsPainPoint c.body).map (commentCandidate post))

/-- The deduplication key: lowercase first 50 characters of the content. -/
def dedupKey (p : PainPoint) : List Char :=
  (toLowerStr p.content).toList.take 50

/-- The seen-set filter inside `deduplicateAndSort` (the JS `Set<string>`
modelled as the list of keys added so far). -/
def dedupAux (seen : List (List Char)) : List PainPoint → List PainPoint
  | [] => []
  | p :: ps =>
      if dedupKey p ∈ seen then dedupAux seen ps
      else p :: dedupAux (dedupKey p :: seen) ps

/-- The deduplication pass of `deduplicateAndSort`. -/
def dedupPart (painPoints : List PainPoint) : List PainPoint :=
  dedupAux [] painPoints

/-- Insert into a descending-by-key list, after any element with an equal or
larger key (this matches the stability of the JS `Array.prototype.sort`). -/
def insertKeyDesc (key : α → Int) (x : α) : List α → List α
  | [] => [x]
  | y :: ys => if key y < key x then x :: y :: ys else y :: insertKeyDesc key x ys

/-- Stable descending sort by an integer key (front-to-back insertion). -/
def sortKeyDesc (key : α → Int) (l : List α) : List α :=
  l.foldl (fun acc x => insertKeyDesc key x acc) []

/-- `PainPointExtractor.deduplicateAndSort`: first-per-key dedup, descending
sort on the engagement score, cap at 100. -/
def deduplicateAndSort (painPoints : List PainPoint) : List PainPoint :=
  (sortKeyDesc (fun p => p.engagementScore) (dedupPart painPoints)).take 100

/-- `PainPointExtractor.extractPainPoints`. -/
def extractPainPoints (posts : List RedditPost) : List PainPoint :=
  deduplicateAndSort ((posts.map extractFromPost).flatten)

/-- `PainPointExtractor.filterByEngagement` with an explicit threshold. -/
def filterByEngagement (painPoints : List PainPoint) (minScore : Int) : List PainPoint :=
  painPoints.filter fun point => minScore ≤ point.engagementScore

/-- `filterByEngagement` as called with the threshold argument omitted: the
declared default is `minScore: number = 5`. -/
def filterByEngagementDefault (painPoints : List PainPoint) : List PainPoint :=
  filterByEngagement painPoints 5

/-! ### The AI relevance filter (`aiFilterRelevantPainPoints`)

The per-batch Gemini call is modelled by an oracle value per batch:
`none` when the request fails or its response cannot be parsed as JSON,
`some items` when it parses to a JSON array.  A parsed array may hold
arbitrary JSON values, and the source loops over it by index with no shape
validation, so the element model distinguishes `null` elements — reading
`.relevant` on them throws — from everything else.  An array longer than
the batch reads `batch[i]` as `undefined`: spreading it yields an object
holding only the restated content (modelled by `phantomPainPoint`), and
reading `.content` on it throws.  Either throw is caught by the enclosing
`catch`, which then pushes the whole batch after the pushes already made
for it. -/

/-- One element of a parsed relevance response array.  `junk` is a `null`
element, on which `aiResults[i].relevant` throws; `entry relevant
pain_point` stands for every other JSON value — `relevant` is whether its
`relevant` field is literally `true` (reading a field of a non-null
non-object gives `undefined`, hence `entry false ""`), and `pain_point` is
the restatement string (`""` for a missing or falsy one). -/
inductive AiItem where
  | junk
  | entry (relevant : Bool) (pain_point : String)
deriving DecidableEq, Repr

/-- The object produced by `{...batch[i], content: restatement}` when
`batch[i]` is `undefined`: only `content` is set (the other fields are
`undefined`; sentinel defaults stand for them here). -/
def phantomPainPoint (content : String) : PainPoint :=
  { id := "", content := content, source := PainSource.comment, score := 0,
    num_comments := 0, subreddit := "", url := "", created_utc := 0,
    engagementScore := 0 }

/-- The body of the per-batch loop over the parsed array.  `i` is the
position in the batch, `acc` the pushes made so far for this batch.  A
`null` element throws at `.relevant`, upon which the `catch` appends the
entire batch after the pushes already made.  An entry marked relevant with
an in-range index pushes the batch member with its content replaced when
the restatement is non-empty (JS `||`); an out-of-range relevant entry with
a non-empty restatement pushes the phantom object, and with an empty one
throws (`undefined.content`), again appending the whole batch. -/
def processBatchAux (batch : List PainPoint) :
    List AiItem → Nat → List PainPoint → List PainPoint
  | [], _, acc => acc
  | AiItem.junk :: _, _, acc => acc ++ batch
  | AiItem.entry relevant pain_point :: rest, i, acc =>
      if relevant then
        match batch[i]? with
        | some p =>
            processBatchAux batch rest (i + 1)
              (acc ++ [{ p with
                content := if pain_point = "" then p.content else pain_point }])
        | none =>
            if pain_point = "" then acc ++ batch
            else processBatchAux batch rest (i + 1) (acc ++ [phantomPainPoint pain_point])
      else processBatchAux batch rest (i + 1) acc

/-- Processing of one batch given a successfully parsed response array. -/
def processBatch (batch : List PainPoint) (items : List AiItem) : List PainPoint :=
  processBatchAux batch items 0 []

/-- What one batch contributes to the output: the whole batch on a failed
call, else the result of the per-array loop. -/
def batchResult (batch : List PainPoint) : Option (List AiItem) → List PainPoint
  | none => batch
  | some items => processBatch batch items

/-- The batching loop body, structurally recursive on a fuel argument so
that it evaluates inside the kernel; `toBatches` supplies enough fuel. -/
def toBatchesGo : Nat → List PainPoint → List (List PainPoint)
  | _, [] => []
  | 0, _ :: _ => []
  | fuel + 1, p :: ps => (p :: ps).take 10 :: toBatchesGo fuel ((p :: ps).drop 10)

/-- The batching loop (`batchSize = 10`): slices of 10 in order. -/
def toBatches (l : List PainPoint) : List (List PainPoint) :=
  toBatchesGo l.length l

/-- Sequential processing of the batches, pairing each with its response
(a missing response stands for a failed call). -/
def aiFilterGo : List (List PainPoint) → List (Option (List AiItem)) → List PainPoint
  | [], _ => []
  | b :: bs, [] => batchResult b none ++ aiFilterGo bs []
  | b :: bs, r :: rs => batchResult b r ++ aiFilterGo bs rs

/-- `PainPointExtractor.aiFilterRelevantPainPoints`, with the Gemini
responses as an explicit oracle list (one per batch). -/
def aiFilterRelevantPainPoints (painPoints : List PainPoint)
    (responses : List (Option (List AiItem))) : List PainPoint :=
  aiFilterGo (toBatches painPoints) responses

/-! ### The Gemini analyzer (`gemini-analyzer.ts`) -/

/-- A categorized cluster (`PainPointCategory`). -/
structure PainPointCategory where
  id : String
  name : String
  description : String
  painPoints : List PainPoint
  count : Nat
  averageEngagement : Int
  summary : String
deriving DecidableEq, Repr

/-- The root output (`AnalysisResult`); the `analyzedAt : Date` wall-clock
field is omitted (no claim concerns it). -/
structure AnalysisResult where
  categories : List PainPointCategory
  totalPainPoints : Nat
  searchTerm : String
  topCategories : List PainPointCategory
  message : Option String
deriving DecidableEq, Repr

/-- `GeminiAnalyzer.generateCategoryId`: lowercase, whitespace runs to a
hyphen, then strip everything outside `[a-z0-9-]`. -/
def generateCategoryId (name : String) : String :=
  let hyphenated := hyphenateWhitespace false (toLowerStr name).toList
  String.mk (hyphenated.filter fun c =>
    (('a' ≤ c ∧ c ≤ 'z') ∨ ('0' ≤ c ∧ c ≤ '9') ∨ c = '-'))
where
  /-- `replace(/\s+/g, '-')`: each maximal whitespace run becomes one `-`. -/
  hyphenateWhitespace : Bool → List Char → List Char
    | _, [] => []
    | prevWS, c :: cs =>
        if c.isWhitespace then
          if prevWS then hyphenateWhitespace true cs
          else '-' :: hyphenateWhitespace true cs
        else c :: hyphenateWhitespace false cs

/-- `GeminiAnalyzer.calculateAverageEngagement`: 0 for an empty list, else
`Math.round(total / length)` — rounding of the exact rational mean
(`round` in Mathlib is `⌊x + 1/2⌋`, which is the JS `Math.round`). -/
def calculateAverageEngagement (painPoints : List PainPoint) : Int :=
  if painPoints.length = 0 then 0
  else round ((((painPoints.map fun p => p.engagementScore).sum : Int) : ℚ) /
    (painPoints.length : ℚ))

/-- The fixed keyword table of `fallbackCategorization`, in source order. -/
def categoryKeywords : List (String × List String) :=
  [("Performance Issues", ["slow", "lag", "freeze", "crash", "performance", "speed"]),
   ("User Interface", ["ui", "interface", "design", "layout", "confusing", "hard to use"]),
   ("Bugs & Errors", ["bug", "error", "broken", "not working", "glitch", "fail"]),
   ("Pricing & Value", ["expensive", "price", "cost", "money", "overpriced", "cheap"]),
   ("Customer Service", ["support", "service", "help", "response", "staff", "rude"]),
   ("Feature Requests", ["wish", "should", "need", "want", "missing", "add"]),
   ("Quality Issues", ["quality", "poor", "bad", "terrible", "awful", "horrible"])]

/-- The name a candidate is assigned by the fallback: the first rule-set
whose keyword list matches (case-insensitive substring) in the content, or
the catch-all. -/
def assignCategoryName (p : PainPoint) : String :=
  let text := toLowerStr p.content
  match categoryKeywords.find? (fun pair => pair.2.any fun keyword => substrOf keyword text) with
  | some pair => pair.1
  | none => "Other Issues"

/-- Keep the first occurrence of each string (the insertion-order keys of
the JS `Map`). -/
def dedupFirstAux (seen : List String) : List String → List String
  | [] => []
  | s :: rest =>
      if s ∈ seen then dedupFirstAux seen rest
      else s :: dedupFirstAux (s :: seen) rest

/-- First-occurrence deduplication of a string list. -/
def dedupFirst (l : List String) : List String :=
  dedupFirstAux [] l

/-- The category the fallback builds for one assigned name: its members are
the candidates assigned that name, in input order. -/
def fallbackCategoryFor (painPoints : List PainPoint) (name : String) :
    PainPointCategory :=
  let points := painPoints.filter fun p => assignCategoryName p = name
  { id := generateCategoryId name
    name := name
    description := "Issues related to " ++ toLowerStr name
    painPoints := points
    count := points.length
    averageEngagement := calculateAverageEngagement points
    summary := "Common " ++ toLowerStr name ++ " reported by users" }

/-- `GeminiAnalyzer.fallbackCategorization`: one category per assigned name,
in order of first assignment (the `Map` iterates in insertion order). -/
def fallbackCategorization (painPoints : List PainPoint) : List PainPointCategory :=
  (dedupFirst (painPoints.map assignCategoryName)).map
    (fallbackCategoryFor painPoints)

/-- One category of a successfully parsed categorization response:
a name, a description and the member index list. -/
structure CategorySpec where
  name : String
  description : String
  painPointIndexes : List Int
deriving DecidableEq, Repr

/-- `category.painPointIndexes.map(i => painPoints[i]).filter(Boolean)`:
out-of-range (including negative) indices resolve to `undefined` and are
dropped. -/
def resolveMembers (painPoints : List PainPoint) (idxs : List Int) : List PainPoint :=
  idxs.filterMap fun i => if 0 ≤ i then painPoints[i.toNat]? else none

/-- `GeminiAnalyzer.parseCategorizationResponse` on a successfully parsed
payload: resolve each category, dropping those with no resolved member. -/
def parseCategorization (specs : List CategorySpec) (painPoints : List PainPoint) :
    List PainPointCategory :=
  specs.filterMap fun spec =>
    let categoryPainPoints := resolveMembers painPoints spec.painPointIndexes
    if categoryPainPoints.length = 0 then none
    else some
      { id := generateCategoryId spec.name
        name := spec.name
        description := spec.description
        painPoints := categoryPainPoints
        count := categoryPainPoints.length
        averageEngagement := calculateAverageEngagement categoryPainPoints
        summary := "" }

/-- `GeminiAnalyzer.performCategorization`: the primary path when the Gemini
call succeeds and its response parses, the keyword fallback when the call or
the parse throws (`catResponse = none`). -/
def performCategorization (painPoints : List PainPoint)
    (catResponse : Option (List CategorySpec)) : List PainPointCategory :=
  match catResponse with
  | none => fallbackCategorization painPoints
  | some specs => parseCategorization specs painPoints

/-- `GeminiAnalyzer.generateCategorySummaries`: each category gets its AI
summary (trimmed) or, when that call fails, the templated sentence.  The
oracle is indexed by the category position. -/
def generateCategorySummaries (categories : List PainPointCategory)
    (sumResponse : Nat → Option String) : List PainPointCategory :=
  categories.enum.map fun pair =>
    match sumResponse pair.1 with
    | some s => { pair.2 with summary := trimStr s }
    | none => { pair.2 with summary := "Common issues related to " ++ toLowerStr pair.2.name }

/-- `GeminiAnalyzer.categorizePainPoints`.  The JS `Array.prototype.sort`
mutates the array in place, so the one sorted array is both the
`categories` field and, truncated to 10, the `topCategories` field. -/
def categorizePainPoints (painPoints : List PainPoint) (searchTerm : String)
    (catResponse : Option (List CategorySpec)) (sumResponse : Nat → Option String) :
    AnalysisResult :=
  if painPoints.length = 0 then
    { categories := [], totalPainPoints := 0, searchTerm := searchTerm,
      topCategories := [], message := none }
  else
    let categories := performCategorization painPoints catResponse
    let categoriesWithSummaries := generateCategorySummaries categories sumResponse
    let sorted := sortKeyDesc (fun c => (c.count : Int)) categoriesWithSummaries
    { categories := sorted
      totalPainPoints := painPoints.length
      searchTerm := searchTerm
      topCategories := sorted.take 10
      message := none }

/-! ### The analyze route handler (`POST`, the version the claims cite) -/

/-- The zero-posts status message. -/
def noPostsMessage : String :=
  "No posts found for this search term. Try a different search term or check if it's spelled correctly."

/-- The zero-candidates status message. -/
def noPainPointsMessage : String :=
  "No complaints or pain points found in the posts. The discussions might be mostly positive."

/-- Step 3/4 of the handler: the candidate set handed to the categorizer is
the engagement-filtered set (threshold 2) unless that is empty, in which
case the unfiltered set is used. -/
def candidatesForCategorizer (painPoints : List PainPoint) : List PainPoint :=
  let filteredPainPoints := filterByEngagement painPoints 2
  if 0 < filteredPainPoints.length then filteredPainPoints else painPoints

/-- The `POST` handler's successful control flow: short-circuit on zero
posts, then on zero extracted candidates, else filter and categorize.  The
Gemini oracles are passed through to the categorizer. -/
def analyzePost (searchTerm : String) (posts : List RedditPost)
    (catResponse : Option (List CategorySpec)) (sumResponse : Nat → Option String) :
    AnalysisResult :=
  if posts.length = 0 then
    { categories := [], totalPainPoints := 0, searchTerm := searchTerm,
      topCategories := [], message := some noPostsMessage }
  else
    let painPoints := extractPainPoints posts
    if painPoints.length = 0 then
      { categories := [], totalPainPoints := 0, searchTerm := searchTerm,
        topCategories := [], message := some noPainPointsMessage }
    else
      categorizePainPoints (candidatesForCategorizer painPoints) searchTerm
        catResponse sumResponse

/-! ## Sample data used by witnesses and counterexamples -/

/-- A title candidate with the given content and engagement score. -/
def mkSamplePoint (id content : String) (e : Int) : PainPoint :=
  { id := id, content := content, source := PainSource.title, score := e,
    num_comments := 0, subreddit := "r", url := "u", created_utc := 0,
    engagementScore := e }

/-- `p` is the first candidate of `l` carrying its deduplication key: it
occurs at some position before which no candidate has an equal key. -/
def isFirstWithKey (l : List PainPoint) (p : PainPoint) : Prop :=
  ∃ i : Nat, l[i]? = some p ∧ dedupKey p ∉ (l.take i).map dedupKey

/-- A complaining comment that itself has a nested reply (which extraction
never visits). -/
def sampleComment : RedditComment :=
  RedditComment.mk "c1" "terrible app" 7 5 "b"
    [RedditComment.mk "c2" "agreed" 1 1 "z" []]

/-- A post whose title is no complaint but whose comment is, and which has
a non-zero reply count of its own. -/
def samplePost : RedditPost :=
  { id := "p1", title := "hello world", selftext := "", score := 1,
    num_comments := 2, url := "u", subreddit := "r", created_utc := 0,
    author := "a", comments := some [sampleComment] }

/-! ## C3 — EngagementGate -/

/-- C3 (amended): `filterByEngagement` keeps exactly the candidates with
`engagementScore >= minScore` (a sublist of the input), but the declared
default threshold is 5, not 2; the pipeline passes 2 explicitly. -/
theorem filterByEngagement_spec (l : List PainPoint) (m : Int) :
    (∀ p, p ∈ filterByEngagement l m ↔ p ∈ l ∧ m ≤ p.engagementScore) ∧
    (filterByEngagement l m).Sublist l ∧
    filterByEngagementDefault l = filterByEngagement l 5 := by
  refine ⟨fun p => ?_, List.filter_sublist l, rfl⟩
  simp [filterByEngagement]

/-- C3 counterexample: on a candidate with engagement score 3, calling the
filter with the threshold omitted drops it (default 5), while the claimed
default threshold 2 would keep it. -/
theorem filterByEngagement_default_is_not_two :
    ¬ (filterByEngagementDefault [mkSamplePoint "c3" "c" 3] =
        filterByEngagement [mkSamplePoint "c3" "c" 3] 2) := by
  decide

/-! ## C6 — relaxation rule at the pipeline level -/

/-- C6: if the extracted candidate pool is non-empty, the candidate set
handed to the categorizer is non-empty: when the engagement-filtered set is
empty, the unfiltered set is used instead. -/
theorem candidatesForCategorizer_ne_nil (painPoints : List PainPoint)
    (h : painPoints ≠ []) : candidatesForCategorizer painPoints ≠ [] := by
  unfold candidatesForCategorizer
  by_cases hf : 0 < (filterByEngagement painPoints 2).length
  · simpa [hf] using List.length_pos.mp hf
  · simpa [hf] using h

/-- Witness for C6 at a concrete one-element pool whose only candidate is
below the threshold (so the relaxation branch is the one taken). -/
theorem candidatesForCategorizer_ne_nil_witness :
    candidatesForCategorizer [mkSamplePoint "c6" "c" 1] ≠ [] :=
  candidatesForCategorizer_ne_nil [mkSamplePoint "c6" "c" 1] (by decide)

/-! ## C9 — zero-document short circuit -/

/-- C9: with zero retrieved posts the pipeline returns a result with
`totalPainPoints = 0`, empty category lists and the "no posts found"
message; the result does not depend on the AI oracles (extraction and
categorization are never invoked), and the message differs from the
"no pain points" message used when posts exist but no candidate is
extracted. -/
theorem analyzePost_zero_posts (t : String) (c1 c2 : Option (List CategorySpec))
    (s1 s2 : Nat → Option String) :
    (analyzePost t [] c1 s1).totalPainPoints = 0 ∧
    (analyzePost t [] c1 s1).categories = [] ∧
    (analyzePost t [] c1 s1).topCategories = [] ∧
    (analyzePost t [] c1 s1).message = some noPostsMessage ∧
    analyzePost t [] c1 s1 = analyzePost t [] c2 s2 ∧
    noPostsMessage ≠ noPainPointsMessage :=
  ⟨rfl, rfl, rfl, rfl, rfl, by decide⟩

/-! ## Shared facts about the stable descending insertion sort -/

theorem insertKeyDesc_perm (key : α → Int) (x : α) (l : List α) :
    (insertKeyDesc key x l).Perm (x :: l) := by
  induction l with
  | nil => exact List.Perm.refl _
  | cons y ys ih =>
    by_cases h : key y < key x
    · simp [insertKeyDesc, h]
    · simp only [insertKeyDesc, h, if_false]
      exact (ih.cons y).trans (List.Perm.swap x y ys)

theorem sortKeyDescAux_perm (key : α → Int) :
    ∀ (l acc : List α),
      (l.foldl (fun acc x => insertKeyDesc key x acc) acc).Perm (acc ++ l)
  | [], acc => by simp
  | x :: xs, acc => by
    simp only [List.foldl_cons]
    exact ((sortKeyDescAux_perm key xs (insertKeyDesc key x acc)).trans
      (((insertKeyDesc_perm key x acc).append_right xs).trans List.perm_middle.symm))

theorem sortKeyDesc_perm (key : α → Int) (l : List α) :
    (sortKeyDesc key l).Perm l := by
  simpa using sortKeyDescAux_perm key l []

theorem insertKeyDesc_pairwise (key : α → Int) (x : α) (l : List α)
    (h : l.Pairwise fun a b => key b ≤ key a) :
    (insertKeyDesc key x l).Pairwise fun a b => key b ≤ key a := by
  induction l with
  | nil => simp [insertKeyDesc]
  | cons y ys ih =>
    rcases List.pairwise_cons.mp h with ⟨hy, hys⟩
    by_cases hlt : key y < key x
    · simp only [insertKeyDesc, hlt, if_true]
      refine List.pairwise_cons.mpr ⟨?_, h⟩
      intro z hz
      rcases List.mem_cons.mp hz with rfl | hz
      · exact le_of_lt hlt
      · exact le_trans (hy z hz) (le_of_lt hlt)
    · simp only [insertKeyDesc, hlt, if_false]
      refine List.pairwise_cons.mpr ⟨?_, ih hys⟩
      intro z hz
      rcases List.mem_cons.mp ((insertKeyDesc_perm key x ys).mem_iff.mp hz) with rfl | h'
      · exact le_of_not_lt hlt
      · exact hy z h'

theorem sortKeyDescAux_pairwise (key : α → Int) :
    ∀ (l acc : List α), (acc.Pairwise fun a b => key b ≤ key a) →
      ((l.foldl (fun acc x => insertKeyDesc key x acc) acc).Pairwise
        fun a b => key b ≤ key a)
  | [], _, h => by simpa using h
  | x :: xs, acc, h => by
    simp only [List.foldl_cons]
    exact sortKeyDescAux_pairwise key xs _ (insertKeyDesc_pairwise key x acc h)

theorem sortKeyDesc_pairwise (key : α → Int) (l : List α) :
    (sortKeyDesc key l).Pairwise fun a b => key b ≤ key a :=
  sortKeyDescAux_pairwise key l [] (List.Pairwise.nil)

/-! ## C2 — final result assembly -/

/-- C2 (amended): for a non-empty candidate set, `topCategories` is the
first 10 entries of the `categories` field, which holds the summarized
categories sorted descending by member count — the JS sort mutates the
array in place, so `categories` has the same members as the
Categorizer/Summarizer output but in sorted order, not the original order. -/
theorem categorizePainPoints_assembly (painPoints : List PainPoint) (t : String)
    (catResponse : Option (List CategorySpec)) (sumResponse : Nat → Option String)
    (h : painPoints ≠ []) :
    (categorizePainPoints painPoints t catResponse sumResponse).categories.Perm
      (generateCategorySummaries (performCategorization painPoints catResponse)
        sumResponse) ∧
    (categorizePainPoints painPoints t catResponse sumResponse).categories.Pairwise
      (fun a b => b.count ≤ a.count) ∧
    (categorizePainPoints painPoints t catResponse sumResponse).topCategories =
      (categorizePainPoints painPoints t catResponse sumResponse).categories.take 10 ∧
    (categorizePainPoints painPoints t catResponse sumResponse).topCategories.length ≤ 10 := by
  have hlen : ¬ painPoints.length = 0 := by simpa [List.length_eq_zero] using h
  simp only [categorizePainPoints, hlen, if_false]
  refine ⟨sortKeyDesc_perm _ _, ?_, by trivial, ?_⟩
  · exact (sortKeyDesc_pairwise (fun c : PainPointCategory => (c.count : Int)) _).imp
      fun hab => by exact_mod_cast hab
  · exact List.length_take_le 10 _

/-- Witness for C2 (amended) at a concrete one-candidate run through the
fallback categorizer. -/
theorem categorizePainPoints_assembly_witness :
    (categorizePainPoints [mkSamplePoint "w2" "v" 1] "t" none (fun _ => none)).categories.Perm
      (generateCategorySummaries (performCategorization [mkSamplePoint "w2" "v" 1] none)
        (fun _ => none)) ∧
    (categorizePainPoints [mkSamplePoint "w2" "v" 1] "t" none
      (fun _ => none)).categories.Pairwise (fun a b => b.count ≤ a.count) ∧
    (categorizePainPoints [mkSamplePoint "w2" "v" 1] "t" none (fun _ => none)).topCategories =
      (categorizePainPoints [mkSamplePoint "w2" "v" 1] "t" none
        (fun _ => none)).categories.take 10 ∧
    (categorizePainPoints [mkSamplePoint "w2" "v" 1] "t" none
      (fun _ => none)).topCategories.length ≤ 10 :=
  categorizePainPoints_assembly [mkSamplePoint "w2" "v" 1] "t" none (fun _ => none)
    (by decide)

/-- C2 counterexample: with two parsed AI categories of sizes 1 and 2 (in
that order), the returned `categories` field reads B, A — the sorted order,
not the original order A, B in which the Categorizer produced them. -/
theorem categorizePainPoints_categories_reordered :
    ((categorizePainPoints
        [mkSamplePoint "a" "x" 1, mkSamplePoint "b" "y" 2, mkSamplePoint "c" "z" 3] "t"
        (some [⟨"A", "dA", [0]⟩, ⟨"B", "dB", [1, 2]⟩]) fun _ => none).categories.map
      fun c => c.name) = ["B", "A"] ∧
    ((generateCategorySummaries
        (performCategorization
          [mkSamplePoint "a" "x" 1, mkSamplePoint "b" "y" 2, mkSamplePoint "c" "z" 3]
          (some [⟨"A", "dA", [0]⟩, ⟨"B", "dB", [1, 2]⟩])) fun _ => none).map
      fun c => c.name) = ["A", "B"] := by
  exact ⟨by decide, by decide⟩

/-! ## C1 — the fallback categorization is a total partition -/

theorem mem_dedupFirstAux {a : String} :
    ∀ (l seen : List String), a ∈ dedupFirstAux seen l ↔ a ∈ l ∧ a ∉ seen
  | [], seen => by simp [dedupFirstAux]
  | x :: xs, seen => by
    by_cases hx : x ∈ seen
    · rw [show dedupFirstAux seen (x :: xs) = dedupFirstAux seen xs from by
        simp [dedupFirstAux, hx]]
      rw [mem_dedupFirstAux xs seen]
      constructor
      · rintro ⟨h1, h2⟩
        exact ⟨List.mem_cons_of_mem x h1, h2⟩
      · rintro ⟨h1, h2⟩
        rcases List.mem_cons.mp h1 with rfl | h1
        · exact absurd hx h2
        · exact ⟨h1, h2⟩
    · rw [show dedupFirstAux seen (x :: xs) = x :: dedupFirstAux (x :: seen) xs from by
        simp [dedupFirstAux, hx]]
      rw [List.mem_cons, mem_dedupFirstAux xs (x :: seen)]
      constructor
      · rintro (rfl | ⟨h1, h2⟩)
        · exact ⟨List.mem_cons_self a xs, hx⟩
        · exact ⟨List.mem_cons_of_mem x h1, fun hs => h2 (List.mem_cons_of_mem x hs)⟩
      · rintro ⟨h1, h2⟩
        by_cases hax : a = x
        · exact Or.inl hax
        · rcases List.mem_cons.mp h1 with rfl | h1
          · exact absurd rfl hax
          · refine Or.inr ⟨h1, fun hs => ?_⟩
            rcases List.mem_cons.mp hs with hh | hh
            · exact hax hh
            · exact h2 hh

theorem nodup_dedupFirstAux : ∀ (l seen : List String), (dedupFirstAux seen l).Nodup
  | [], seen => by simp [dedupFirstAux]
  | x :: xs, seen => by
    by_cases hx : x ∈ seen
    · simpa [dedupFirstAux, hx] using nodup_dedupFirstAux xs seen
    · rw [show dedupFirstAux seen (x :: xs) = x :: dedupFirstAux (x :: seen) xs from by
        simp [dedupFirstAux, hx]]
      refine List.nodup_cons.mpr ⟨fun hmem => ?_, nodup_dedupFirstAux xs (x :: seen)⟩
      exact ((mem_dedupFirstAux xs (x :: seen)).mp hmem).2 (List.mem_cons_self x seen)

theorem countP_split_notMem (x : String) (seen : List String) (hx : x ∉ seen) :
    ∀ (xs : List String),
      (xs.countP fun a => a ∉ seen) =
        xs.count x + xs.countP fun a => a ∉ x :: seen
  | [] => by simp
  | a :: xs => by
    have ih := countP_split_notMem x seen hx xs
    rw [List.countP_cons, List.countP_cons, List.count_cons, ih]
    by_cases hax : a = x
    · subst hax
      simp [hx]
      omega
    · by_cases has : a ∈ seen
      · simp [has, hax, Ne.symm hax]
      · simp [has, hax, Ne.symm hax]
        omega

theorem dedupFirstAux_sum_count : ∀ (names seen : List String),
    ((dedupFirstAux seen names).map fun n => names.count n).sum =
      names.countP fun a => a ∉ seen
  | [], seen => by simp [dedupFirstAux]
  | x :: xs, seen => by
    by_cases hx : x ∈ seen
    · rw [show dedupFirstAux seen (x :: xs) = dedupFirstAux seen xs from by
        simp [dedupFirstAux, hx]]
      have hmap : ((dedupFirstAux seen xs).map fun n => (x :: xs).count n) =
          (dedupFirstAux seen xs).map fun n => xs.count n := by
        apply List.map_congr_left
        intro n hn
        have hns := (mem_dedupFirstAux xs seen).mp hn
        have hnx : x ≠ n := fun he => hns.2 (he ▸ hx)
        simp [List.count_cons, hnx]
      rw [hmap, dedupFirstAux_sum_count xs seen, List.countP_cons]
      simp [hx]
    · rw [show dedupFirstAux seen (x :: xs) = x :: dedupFirstAux (x :: seen) xs from by
        simp [dedupFirstAux, hx]]
      rw [List.map_cons, List.sum_cons]
      have hmap : ((dedupFirstAux (x :: seen) xs).map fun n => (x :: xs).count n) =
          (dedupFirstAux (x :: seen) xs).map fun n => xs.count n := by
        apply List.map_congr_left
        intro n hn
        have hns := (mem_dedupFirstAux xs (x :: seen)).mp hn
        have hnx : x ≠ n := fun he => hns.2 (he ▸ List.mem_cons_self x seen)
        simp [List.count_cons, hnx]
      rw [hmap, dedupFirstAux_sum_count xs (x :: seen), List.countP_cons,
        List.count_cons, countP_split_notMem x seen hx xs]
      simp [hx]
      omega

theorem dedupFirst_sum_count (names : List String) :
    ((dedupFirst names).map fun n => names.count n).sum = names.length := by
  have h := dedupFirstAux_sum_count names []
  simpa [dedupFirst] using h

/-- C1: on every non-empty candidate list the fallback categorization is a
total partition: at least one category is produced, the category counts sum
to the input length, and each input candidate belongs to exactly one
category — the one named by the first matching rule-set (or the catch-all,
as computed by `assignCategoryName`). -/
theorem fallbackCategorization_partition (l : List PainPoint) (h : l ≠ []) :
    fallbackCategorization l ≠ [] ∧
    ((fallbackCategorization l).map fun c => c.count).sum = l.length ∧
    ∀ p ∈ l,
      ((fallbackCategorization l).countP fun c => decide (p ∈ c.painPoints)) = 1 ∧
      ∃ c ∈ fallbackCategorization l, p ∈ c.painPoints ∧
        c.name = assignCategoryName p := by
  refine ⟨?_, ?_, ?_⟩
  · cases l with
    | nil => exact absurd rfl h
    | cons q qs => simp [fallbackCategorization, dedupFirst, dedupFirstAux]
  · rw [fallbackCategorization, List.map_map]
    have hmap : ((fun c : PainPointCategory => c.count) ∘ fallbackCategoryFor l) =
        fun name => (l.map assignCategoryName).count name := by
      funext name
      simp only [Function.comp, fallbackCategoryFor]
      rw [← List.countP_eq_length_filter, List.count, List.countP_map]
      apply List.countP_congr
      intro p _
      by_cases hp : assignCategoryName p = name <;> simp [Function.comp, hp]
    rw [hmap, dedupFirst_sum_count, List.length_map]
  · intro p hp
    have hmem : assignCategoryName p ∈ dedupFirst (l.map assignCategoryName) := by
      rw [dedupFirst, mem_dedupFirstAux]
      exact ⟨List.mem_map_of_mem assignCategoryName hp, List.not_mem_nil _⟩
    constructor
    · rw [fallbackCategorization, List.countP_map]
      have hcongr : ((dedupFirst (l.map assignCategoryName)).countP
            ((fun c : PainPointCategory => decide (p ∈ c.painPoints)) ∘
              fallbackCategoryFor l)) =
          (dedupFirst (l.map assignCategoryName)).countP
            fun name => name == assignCategoryName p := by
        apply List.countP_congr
        intro name _
        by_cases hn : assignCategoryName p = name
        · simp [Function.comp, fallbackCategoryFor, List.mem_filter, hp, hn]
        · have hn' : ¬ name = assignCategoryName p := fun he => hn he.symm
          simp [Function.comp, fallbackCategoryFor, List.mem_filter, hn, hn']
      rw [hcongr, ← List.count]
      exact List.count_eq_one_of_mem (nodup_dedupFirstAux _ []) hmem
    · rw [fallbackCategorization]
      refine ⟨fallbackCategoryFor l (assignCategoryName p),
        List.mem_map_of_mem (fallbackCategoryFor l) hmem, ?_, rfl⟩
      simp [fallbackCategoryFor, List.mem_filter, hp]

/-- Witness for C1 on a concrete two-candidate list hitting one rule-set
category and the catch-all. -/
theorem fallbackCategorization_partition_witness :
    fallbackCategorization [mkSamplePoint "w1a" "so slow" 2, mkSamplePoint "w1b" "zzz" 1] ≠ [] ∧
    ((fallbackCategorization [mkSamplePoint "w1a" "so slow" 2,
        mkSamplePoint "w1b" "zzz" 1]).map fun c => c.count).sum =
      [mkSamplePoint "w1a" "so slow" 2, mkSamplePoint "w1b" "zzz" 1].length ∧
    ∀ p ∈ [mkSamplePoint "w1a" "so slow" 2, mkSamplePoint "w1b" "zzz" 1],
      ((fallbackCategorization [mkSamplePoint "w1a" "so slow" 2,
          mkSamplePoint "w1b" "zzz" 1]).countP fun c => decide (p ∈ c.painPoints)) = 1 ∧
      ∃ c ∈ fallbackCategorization [mkSamplePoint "w1a" "so slow" 2,
          mkSamplePoint "w1b" "zzz" 1], p ∈ c.painPoints ∧
        c.name = assignCategoryName p :=
  fallbackCategorization_partition
    [mkSamplePoint "w1a" "so slow" 2, mkSamplePoint "w1b" "zzz" 1] (by decide)

/-! ## C8 — per-category count and average -/

theorem calculateAverageEngagement_eq_round (points : List PainPoint) :
    calculateAverageEngagement points =
      round ((((points.map fun p => p.engagementScore).sum : Int) : ℚ) /
        (points.length : ℚ)) := by
  cases points with
  | nil => simp [calculateAverageEngagement]
  | cons q qs => rw [calculateAverageEngagement, if_neg (by simp)]

/-- C8: every category either categorization path produces carries
`count` equal to its member count and `averageEngagement` equal to the
rounded rational mean of the members' engagement scores; the mean of the
empty list is 0, and a single-member mean is exactly that member's score. -/
theorem category_count_and_average (l : List PainPoint)
    (resp : Option (List CategorySpec)) :
    (∀ c ∈ performCategorization l resp,
        c.count = c.painPoints.length ∧
        c.averageEngagement =
          round ((((c.painPoints.map fun p => p.engagementScore).sum : Int) : ℚ) /
            (c.painPoints.length : ℚ))) ∧
    (∀ p : PainPoint, calculateAverageEngagement [p] = p.engagementScore) ∧
    calculateAverageEngagement [] = 0 := by
  refine ⟨?_, ?_, rfl⟩
  · intro c hc
    have hfields : c.count = c.painPoints.length ∧
        c.averageEngagement = calculateAverageEngagement c.painPoints := by
      cases resp with
      | none =>
        rw [performCategorization] at hc
        rcases List.mem_map.mp hc with ⟨name, _, rfl⟩
        exact ⟨rfl, rfl⟩
      | some specs =>
        rw [performCategorization, parseCategorization] at hc
        rcases List.mem_filterMap.mp hc with ⟨spec, _, hspec⟩
        by_cases hz : (resolveMembers l spec.painPointIndexes).length = 0
        · rw [if_pos hz] at hspec
          exact absurd hspec (by simp)
        · rw [if_neg hz] at hspec
          cases Option.some.inj hspec
          exact ⟨rfl, rfl⟩
    refine ⟨hfields.1, ?_⟩
    rw [hfields.2, calculateAverageEngagement_eq_round]
  · intro p
    rw [calculateAverageEngagement, if_neg (by simp)]
    simp

/-! ## C7 — deduplicate, sort, cap -/

theorem mem_dedupAux {p : PainPoint} :
    ∀ (l : List PainPoint) (seen : List (List Char)),
      (p ∈ dedupAux seen l ↔
        ∃ i : Nat, l[i]? = some p ∧ dedupKey p ∉ seen ∧
          dedupKey p ∉ (l.take i).map dedupKey)
  | [], seen => by simp [dedupAux]
  | x :: xs, seen => by
    by_cases hx : dedupKey x ∈ seen
    · rw [show dedupAux seen (x :: xs) = dedupAux seen xs from by simp [dedupAux, hx]]
      rw [mem_dedupAux xs seen]
      constructor
      · rintro ⟨j, hj, hseen, htake⟩
        refine ⟨j + 1, by simpa using hj, hseen, ?_⟩
        rw [List.take_succ_cons, List.map_cons, List.mem_cons]
        push_neg
        exact ⟨fun hk => hseen (hk ▸ hx), htake⟩
      · rintro ⟨i, hi, hseen, htake⟩
        cases i with
        | zero =>
          rw [List.getElem?_cons_zero] at hi
          cases Option.some.inj hi
          exact absurd hx hseen
        | succ j =>
          rw [List.getElem?_cons_succ] at hi
          rw [List.take_succ_cons, List.map_cons, List.mem_cons] at htake
          push_neg at htake
          exact ⟨j, hi, hseen, htake.2⟩
    · rw [show dedupAux seen (x :: xs) = x :: dedupAux (dedupKey x :: seen) xs from by
        simp [dedupAux, hx]]
      rw [List.mem_cons, mem_dedupAux xs (dedupKey x :: seen)]
      constructor
      · rintro (rfl | ⟨j, hj, hseen, htake⟩)
        · exact ⟨0, by simp, hx, by simp⟩
        · rw [List.mem_cons] at hseen
          push_neg at hseen
          refine ⟨j + 1, by simpa using hj, hseen.2, ?_⟩
          rw [List.take_succ_cons, List.map_cons, List.mem_cons]
          push_neg
          exact ⟨hseen.1, htake⟩
      · rintro ⟨i, hi, hseen, htake⟩
        cases i with
        | zero =>
          rw [List.getElem?_cons_zero] at hi
          exact Or.inl (Option.some.inj hi).symm
        | succ j =>
          rw [List.getElem?_cons_succ] at hi
          rw [List.take_succ_cons, List.map_cons, List.mem_cons] at htake
          push_neg at htake
          refine Or.inr ⟨j, hi, ?_, htake.2⟩
          rw [List.mem_cons]
          push_neg
          exact ⟨htake.1, hseen⟩

/-- C7: `deduplicateAndSort` keeps exactly the first candidate per
(lowercase 50-character content prefix) key, orders the survivors — a
permutation of them — descending by engagement score, and returns at most
the first 100 of the sorted survivors. -/
theorem deduplicateAndSort_spec (l : List PainPoint) :
    (∀ p, p ∈ dedupPart l ↔ isFirstWithKey l p) ∧
    (sortKeyDesc (fun p => p.engagementScore) (dedupPart l)).Perm (dedupPart l) ∧
    deduplicateAndSort l =
      (sortKeyDesc (fun p => p.engagementScore) (dedupPart l)).take 100 ∧
    (deduplicateAndSort l).Pairwise
      (fun a b => b.engagementScore ≤ a.engagementScore) ∧
    (deduplicateAndSort l).length ≤ 100 := by
  refine ⟨fun p => ?_, sortKeyDesc_perm _ _, rfl, ?_, List.length_take_le _ _⟩
  · rw [dedupPart, mem_dedupAux l []]
    simp [isFirstWithKey]
  · exact List.Pairwise.sublist (List.take_sublist _ _)
      (sortKeyDesc_pairwise (fun p : PainPoint => p.engagementScore) _)

/-- Witness for C8 at a concrete single-candidate fallback run. -/
theorem category_count_and_average_witness :
    (∀ c ∈ performCategorization [mkSamplePoint "w8" "q" 7] none,
        c.count = c.painPoints.length ∧
        c.averageEngagement =
          round ((((c.painPoints.map fun p => p.engagementScore).sum : Int) : ℚ) /
            (c.painPoints.length : ℚ))) ∧
    (∀ p : PainPoint, calculateAverageEngagement [p] = p.engagementScore) ∧
    calculateAverageEngagement [] = 0 :=
  category_count_and_average [mkSamplePoint "w8" "q" 7] none

/-! ## C4 — relevance filter output length -/

theorem processBatchAux_length_le (batch : List PainPoint) :
    ∀ (items : List AiItem) (i : Nat) (acc : List PainPoint),
      AiItem.junk ∉ items →
      i + items.length ≤ batch.length →
      (processBatchAux batch items i acc).length ≤ acc.length + items.length
  | [], _, acc, _, _ => by simp [processBatchAux]
  | AiItem.junk :: rest, i, acc, hjunk, h =>
      absurd (List.mem_cons_self _ _) hjunk
  | AiItem.entry relevant pain_point :: rest, i, acc, hjunk, h => by
    have hjrest : AiItem.junk ∉ rest := fun hm => hjunk (List.mem_cons_of_mem _ hm)
    have hlt : i < batch.length := by
      simp only [List.length_cons] at h
      omega
    have hsome : batch[i]? = some batch[i] := List.getElem?_eq_getElem hlt
    by_cases hrel : relevant
    · rw [processBatchAux, if_pos hrel, hsome]
      have hrec := processBatchAux_length_le batch rest (i + 1)
        (acc ++ [{ batch[i] with
          content := if pain_point = "" then batch[i].content else pain_point }])
        hjrest (by simp only [List.length_cons] at h; omega)
      simp only [List.length_append, List.length_cons, List.length_nil] at hrec ⊢
      omega
    · rw [processBatchAux, if_neg hrel]
      have hrec := processBatchAux_length_le batch rest (i + 1) acc
        hjrest (by simp only [List.length_cons] at h; omega)
      simp only [List.length_cons]
      omega

theorem processBatch_length_le (batch : List PainPoint) (items : List AiItem)
    (hjunk : AiItem.junk ∉ items) (h : items.length ≤ batch.length) :
    (processBatch batch items).length ≤ batch.length := by
  have haux := processBatchAux_length_le batch items 0 [] hjunk (by omega)
  simp only [List.length_nil, Nat.zero_add] at haux
  exact le_trans haux h

theorem aiFilterGo_length_le :
    ∀ (bs : List (List PainPoint)) (rs : List (Option (List AiItem))),
      (∀ (i : Nat) (es : List AiItem), (rs[i]?).getD none = some es →
        es.length ≤ ((bs[i]?).getD []).length ∧ AiItem.junk ∉ es) →
      (aiFilterGo bs rs).length ≤ (bs.map List.length).sum
  | [], _, _ => by simp [aiFilterGo]
  | b :: bs, [], _ => by
    rw [aiFilterGo, List.length_append]
    have hrec := aiFilterGo_length_le bs [] fun i es hi => by simp at hi
    simp only [batchResult, List.map_cons, List.sum_cons]
    omega
  | b :: bs, r :: rs, h => by
    rw [aiFilterGo, List.length_append]
    have hrec := aiFilterGo_length_le bs rs fun i es hi => by
      have hshift := h (i + 1) es (by simpa using hi)
      simpa using hshift
    have hhead : (batchResult b r).length ≤ b.length := by
      cases r with
      | none => exact le_refl _
      | some es =>
        have hes := h 0 es (by simp)
        simp only [List.getElem?_cons_zero, Option.getD_some] at hes
        exact processBatch_length_le b es hes.2 (by simpa using hes.1)
    simp only [List.map_cons, List.sum_cons]
    omega

theorem toBatchesGo_flatten :
    ∀ (fuel : Nat) (l : List PainPoint), l.length ≤ fuel →
      (toBatchesGo fuel l).flatten = l
  | _, [], _ => by simp [toBatchesGo]
  | 0, _ :: _, h => by simp at h
  | fuel + 1, p :: ps, h => by
    rw [toBatchesGo, List.flatten_cons,
      toBatchesGo_flatten fuel ((p :: ps).drop 10)
        (by simp only [List.length_drop, List.length_cons] at h ⊢; omega),
      List.take_append_drop]

theorem toBatches_flatten (l : List PainPoint) : (toBatches l).flatten = l :=
  toBatchesGo_flatten l.length l (le_refl _)

/-- C4 (amended): the relevance filter's output is no longer than its input
provided every successfully parsed batch response is an array of
well-formed `{relevant, pain_point}` objects — no `null` elements — with at
most as many entries as its batch (a failed batch contributes exactly the
batch).  Otherwise the unconditional claim fails: an over-long response
array pushes extra items, and a `null` element after a relevant push makes
the `catch` append the whole batch on top of the pushes. -/
theorem aiFilter_length_le (painPoints : List PainPoint)
    (responses : List (Option (List AiItem)))
    (h : ∀ (i : Nat) (es : List AiItem), (responses[i]?).getD none = some es →
        es.length ≤ (((toBatches painPoints)[i]?).getD []).length ∧
        AiItem.junk ∉ es) :
    (aiFilterRelevantPainPoints painPoints responses).length ≤ painPoints.length := by
  have hgo := aiFilterGo_length_le (toBatches painPoints) responses h
  calc (aiFilterRelevantPainPoints painPoints responses).length
      ≤ ((toBatches painPoints).map List.length).sum := hgo
    _ = (toBatches painPoints).flatten.length := (List.length_flatten _).symm
    _ = painPoints.length := by rw [toBatches_flatten]

/-- Witness for C4 (amended): one batch, a well-formed one-entry response. -/
theorem aiFilter_length_le_witness :
    (aiFilterRelevantPainPoints [mkSamplePoint "w4" "x" 1]
        [some [AiItem.entry true "ok"]]).length ≤ [mkSamplePoint "w4" "x" 1].length :=
  aiFilter_length_le [mkSamplePoint "w4" "x" 1] [some [AiItem.entry true "ok"]] (by
    intro i es hi
    cases i with
    | zero =>
      simp only [List.getElem?_cons_zero, Option.getD_some, Option.some.injEq] at hi
      subst hi
      exact ⟨by decide, by decide⟩
    | succ j => simp at hi)

/-- C4 counterexample: a parsed response array holding two relevant entries
for a one-candidate batch makes the output longer than the input; so does a
two-element batch answered by one relevant entry and a `null`, which stays
within the batch size and still yields three outputs. -/
theorem aiFilter_output_longer :
    ¬ ((aiFilterRelevantPainPoints [mkSamplePoint "a" "x" 1]
        [some [AiItem.entry true "r1", AiItem.entry true "r2"]]).length ≤
      ([mkSamplePoint "a" "x" 1] : List PainPoint).length) ∧
    ¬ ((aiFilterRelevantPainPoints [mkSamplePoint "a" "x" 1, mkSamplePoint "b" "y" 2]
        [some [AiItem.entry true "r1", AiItem.junk]]).length ≤
      ([mkSamplePoint "a" "x" 1, mkSamplePoint "b" "y" 2] : List PainPoint).length) := by
  exact ⟨by decide, by decide⟩

/-! ## C5 — batch failure pass-through and batch independence -/

theorem aiFilterGo_cons (b : List PainPoint) (bs : List (List PainPoint))
    (rs : List (Option (List AiItem))) :
    aiFilterGo (b :: bs) rs =
      batchResult b ((rs[0]?).getD none) ++ aiFilterGo bs (rs.drop 1) := by
  cases rs <;> simp [aiFilterGo]

theorem aiFilterGo_congr :
    ∀ (bs : List (List PainPoint)) (rs rs2 : List (Option (List AiItem))),
      (∀ j : Nat, (rs[j]?).getD none = (rs2[j]?).getD none) →
      aiFilterGo bs rs = aiFilterGo bs rs2
  | [], _, _, _ => rfl
  | b :: bs, rs, rs2, h => by
    rw [aiFilterGo_cons, aiFilterGo_cons, h 0]
    congr 1
    exact aiFilterGo_congr bs (rs.drop 1) (rs2.drop 1) fun j => by
      rw [List.getElem?_drop, List.getElem?_drop]
      exact h (1 + j)

theorem aiFilterGo_segment :
    ∀ (bs : List (List PainPoint)) (k : Nat) (b : List PainPoint)
      (rs rs2 : List (Option (List AiItem))),
      bs[k]? = some b →
      (∀ j : Nat, j ≠ k → (rs[j]?).getD none = (rs2[j]?).getD none) →
      ∃ pre suf,
        aiFilterGo bs rs = pre ++ batchResult b ((rs[k]?).getD none) ++ suf ∧
        aiFilterGo bs rs2 = pre ++ batchResult b ((rs2[k]?).getD none) ++ suf
  | [], k, b, rs, rs2, hb, _ => by simp at hb
  | b0 :: bs, 0, b, rs, rs2, hb, hagree => by
    rw [List.getElem?_cons_zero] at hb
    cases Option.some.inj hb
    refine ⟨[], aiFilterGo bs (rs.drop 1), ?_, ?_⟩
    · rw [aiFilterGo_cons]
      simp
    · rw [aiFilterGo_cons]
      rw [aiFilterGo_congr bs (rs2.drop 1) (rs.drop 1) fun j => by
        rw [List.getElem?_drop, List.getElem?_drop]
        exact (hagree (1 + j) (by omega)).symm]
      simp
  | b0 :: bs, k + 1, b, rs, rs2, hb, hagree => by
    rw [List.getElem?_cons_succ] at hb
    obtain ⟨pre, suf, h1, h2⟩ := aiFilterGo_segment bs k b (rs.drop 1) (rs2.drop 1)
      hb (fun j hj => by
        rw [List.getElem?_drop, List.getElem?_drop]
        exact hagree (1 + j) (by omega))
    have hdropk : ∀ (xs : List (Option (List AiItem))), (xs.drop 1)[k]? = xs[k + 1]? := by
      intro xs
      rw [List.getElem?_drop, Nat.add_comm]
    refine ⟨batchResult b0 ((rs[0]?).getD none) ++ pre, suf, ?_, ?_⟩
    · rw [aiFilterGo_cons, h1, hdropk rs]
      simp [List.append_assoc]
    · rw [aiFilterGo_cons, h2, hdropk rs2, (hagree 0 (by omega)).symm]
      simp [List.append_assoc]

theorem processBatchAux_append_batch (batch : List PainPoint) :
    ∀ (items : List AiItem) (i : Nat) (acc : List PainPoint),
      AiItem.junk ∈ items →
      ∃ front, processBatchAux batch items i acc = front ++ batch
  | [], _, _, h => absurd h (List.not_mem_nil _)
  | AiItem.junk :: _, _, acc, _ => ⟨acc, rfl⟩
  | AiItem.entry relevant pain_point :: rest, i, acc, h => by
    have hrest : AiItem.junk ∈ rest := by
      rcases List.mem_cons.mp h with h | h
      · exact absurd h (by simp)
      · exact h
    by_cases hrel : relevant
    · rw [processBatchAux, if_pos hrel]
      cases hbi : batch[i]? with
      | some p => exact processBatchAux_append_batch batch rest (i + 1) _ hrest
      | none =>
        by_cases hs : pain_point = ""
        · rw [if_pos hs]
          exact ⟨acc, rfl⟩
        · rw [if_neg hs]
          exact processBatchAux_append_batch batch rest (i + 1) _ hrest
    · rw [processBatchAux, if_neg hrel]
      exact processBatchAux_append_batch batch rest (i + 1) _ hrest

/-- C5 (amended): when batch `k`'s classification call throws — a request
error, an unparsable response, or a parsed array holding a `null` element
(the read of its `relevant` field throws) — every candidate of that batch
appears unchanged, as a contiguous segment, in the output: the `catch`
appends the whole batch after any pushes already made for it.  And for any
two runs whose responses agree on every batch but `k`, the output around
batch `k`'s contribution is identical, so no response for one batch changes
how any other batch is processed.  (A response parsing to a well-formed but
empty or short array is instead applied as a filter: unconsidered
candidates are silently dropped, not passed through.) -/
theorem relevanceFilter_batch_failure (painPoints : List PainPoint)
    (rs rs2 : List (Option (List AiItem))) (k : Nat) (b : List PainPoint)
    (hb : (toBatches painPoints)[k]? = some b)
    (hfail : (rs[k]?).getD none = none ∨
      ∃ es, (rs[k]?).getD none = some es ∧ AiItem.junk ∈ es)
    (hagree : ∀ j : Nat, j ≠ k → (rs[j]?).getD none = (rs2[j]?).getD none) :
    (∃ pre suf, aiFilterRelevantPainPoints painPoints rs = pre ++ b ++ suf) ∧
    ∃ pre2 suf2,
      aiFilterRelevantPainPoints painPoints rs =
        pre2 ++ batchResult b ((rs[k]?).getD none) ++ suf2 ∧
      aiFilterRelevantPainPoints painPoints rs2 =
        pre2 ++ batchResult b ((rs2[k]?).getD none) ++ suf2 := by
  obtain ⟨pre, suf, h1, h2⟩ :=
    aiFilterGo_segment (toBatches painPoints) k b rs rs2 hb hagree
  refine ⟨?_, pre, suf, h1, h2⟩
  rcases hfail with hnone | ⟨es, hes, hjunk⟩
  · refine ⟨pre, suf, ?_⟩
    rw [aiFilterRelevantPainPoints, h1, hnone]
    rfl
  · obtain ⟨front, hfront⟩ := processBatchAux_append_batch b es 0 [] hjunk
    refine ⟨pre ++ front, suf, ?_⟩
    rw [aiFilterRelevantPainPoints, h1, hes,
      show batchResult b (some es) = front ++ b from hfront]
    simp [List.append_assoc]

/-- Witness for C5: a one-candidate batch whose parsed response pushes one
rewritten item and then hits a `null` element (so the whole batch is
appended after the push), against a second run whose call fails outright. -/
theorem relevanceFilter_batch_failure_witness :
    (∃ pre suf,
      aiFilterRelevantPainPoints [mkSamplePoint "w5" "x" 1]
          [some [AiItem.entry true "hi", AiItem.junk]] =
        pre ++ [mkSamplePoint "w5" "x" 1] ++ suf) ∧
    ∃ pre2 suf2,
      aiFilterRelevantPainPoints [mkSamplePoint "w5" "x" 1]
          [some [AiItem.entry true "hi", AiItem.junk]] =
        pre2 ++ batchResult [mkSamplePoint "w5" "x" 1]
          ((([some [AiItem.entry true "hi", AiItem.junk]] :
            List (Option (List AiItem)))[0]?).getD none) ++ suf2 ∧
      aiFilterRelevantPainPoints [mkSamplePoint "w5" "x" 1] [none] =
        pre2 ++ batchResult [mkSamplePoint "w5" "x" 1]
          ((([none] : List (Option (List AiItem)))[0]?).getD none) ++ suf2 :=
  relevanceFilter_batch_failure [mkSamplePoint "w5" "x" 1]
    [some [AiItem.entry true "hi", AiItem.junk]] [none] 0
    [mkSamplePoint "w5" "x" 1] (by decide)
    (Or.inr ⟨[AiItem.entry true "hi", AiItem.junk], rfl, by decide⟩)
    (by
      intro j hj
      cases j with
      | zero => exact absurd rfl hj
      | succ j => simp)

/-- C5 counterexample: an empty parsed array for a one-candidate batch is a
malformed response (no entry is positionally aligned with the candidate),
yet the per-array loop is a no-op: the batch is silently dropped, its
candidate does not appear in the output at all. -/
theorem relevanceFilter_malformed_drops :
    aiFilterRelevantPainPoints [mkSamplePoint "c5" "x" 3] [some []] = [] ∧
    mkSamplePoint "c5" "x" 3 ∉
      aiFilterRelevantPainPoints [mkSamplePoint "c5" "x" 3] [some []] := by
  exact ⟨by decide, by decide⟩

/-! ## C10 — comment candidates -/

theorem mem_of_mem_deduplicateAndSort {p : PainPoint} {l : List PainPoint}
    (h : p ∈ deduplicateAndSort l) : p ∈ l := by
  rw [deduplicateAndSort] at h
  have h1 : p ∈ sortKeyDesc (fun p => p.engagementScore) (dedupPart l) :=
    List.mem_of_mem_take h
  have h2 : p ∈ dedupPart l := (sortKeyDesc_perm _ _).mem_iff.mp h1
  rw [dedupPart, mem_dedupAux l []] at h2
  obtain ⟨i, hi, -, -⟩ := h2
  exact List.getElem?_mem hi

/-- C10: every candidate in the extractor output with source `comment` has
`num_comments = 0` and an engagement score equal to its own copied comment
upvote score — the parent post's reply count never contributes. -/
theorem comment_candidate_engagement (posts : List RedditPost) (p : PainPoint)
    (hp : p ∈ extractPainPoints posts) (hs : p.source = PainSource.comment) :
    p.num_comments = 0 ∧ p.engagementScore = p.score := by
  have hmem : p ∈ (posts.map extractFromPost).flatten :=
    mem_of_mem_deduplicateAndSort hp
  rcases List.mem_flatten.mp hmem with ⟨contrib, hcontrib, hpc⟩
  rcases List.mem_map.mp hcontrib with ⟨post, _, rfl⟩
  rw [extractFromPost] at hpc
  rcases List.mem_append.mp hpc with hpc | hpc
  · rcases List.mem_append.mp hpc with hpc | hpc
    · split at hpc
      · rcases List.mem_singleton.mp hpc with rfl
        simp [titleCandidate] at hs
      · simp at hpc
    · split at hpc
      · rcases List.mem_singleton.mp hpc with rfl
        simp [postCandidate] at hs
      · simp at hpc
  · cases hcomments : post.comments with
    | none =>
      rw [hcomments] at hpc
      simp at hpc
    | some cs =>
      rw [hcomments] at hpc
      rcases List.mem_map.mp hpc with ⟨c, -, rfl⟩
      refine ⟨rfl, ?_⟩
      simp [commentCandidate, calculateEngagementScore]

/-- Witness for C10: in the sample post, the comment-derived candidate has
`num_comments = 0` and engagement score 7, the comment's own score, even
though the parent post reports 2 replies and the comment has a nested
reply. -/
theorem comment_candidate_engagement_witness :
    (commentCandidate samplePost sampleComment).num_comments = 0 ∧
    (commentCandidate samplePost sampleComment).engagementScore =
      (commentCandidate samplePost sampleComment).score :=
  comment_candidate_engagement [samplePost]
    (commentCandidate samplePost sampleComment) (by decide) (by decide)

end PainPointer
